import Mathlib

/-!
Verification of the vehicle pathfinding core of the abstreet repository
(`src/map_model/src/pathfind/driving.rs`).

Scalar quantities (`geom::Distance`, `geom::Speed`, `geom::Duration`) are
modelled as exact rationals (the source uses `f64`; all quantities involved in
the claims are small positive values where `f64` arithmetic is exact enough
that the rational model matches `f64` `.round()` behaviour, which for
non-negative arguments agrees with Mathlib's `round`, i.e. nearest, half up).

Code that is part of the repository but not under `src/` (the `NodeMap`,
`Path::new`, `Map` accessors, and the `fast_paths` hierarchy/query engine) is
modelled from the spec; each such definition carries a doc comment saying so.
The file `driving.rs` itself is embedded faithfully: `VehiclePathfinder::new`,
`VehiclePathfinder::pathfind`, `VehiclePathfinder::apply_edits`,
`make_input_graph`, `cost` and `check_bike_route` (whose `println!` output is
dropped but whose reachable panics are kept).
-/

namespace ABStreet

/-- `TurnID { parent, src, dst }` from map_model: intersection plus the two lanes. -/
structure TurnID where
  parent : ℕ
  src : ℕ
  dst : ℕ
deriving DecidableEq, Repr

/-- Lane types relevant to the core (map_model `LaneType`). -/
inductive LaneType where
  | driving
  | biking
  | bus
  | sidewalk
deriving DecidableEq, Repr

/-- A lane of the network: stable id, type, centerline length (meters), owning
road, destination intersection.  Modelled from the spec (the `Lane` struct is
not under `src/`): "per-lane length, owning-road speed limit, lane type". -/
structure Lane where
  id : ℕ
  laneType : LaneType
  length : ℚ
  parent : ℕ
  dst_i : ℕ
deriving DecidableEq, Repr

def Lane.is_driving (l : Lane) : Bool := l.laneType = LaneType.driving
def Lane.is_biking (l : Lane) : Bool := l.laneType = LaneType.biking
def Lane.is_bus (l : Lane) : Bool := l.laneType = LaneType.bus
def Lane.is_sidewalk (l : Lane) : Bool := l.laneType = LaneType.sidewalk

/-- A road: only its speed limit (m/s) matters to the core. -/
structure Road where
  speed_limit : ℚ
deriving DecidableEq, Repr

/-- A turn: its id and geometry length (meters). -/
structure Turn where
  id : TurnID
  geomLength : ℚ
deriving DecidableEq, Repr

/-- The network snapshot consumed by the core: lanes, roads, turns.
Modelled from the spec ("Consumed from the network collaborator: per-lane
length, owning-road speed limit, lane type, per-lane outgoing turns"). -/
structure Map where
  lanes : List Lane
  roads : List Road
  turns : List Turn

def defaultLane : Lane := ⟨0, LaneType.driving, 0, 0, 0⟩

def Map.get_l (m : Map) (i : ℕ) : Lane := m.lanes.getD i defaultLane

def Map.get_r (m : Map) (i : ℕ) : Road := m.roads.getD i ⟨1⟩

/-- `map.get_parent(lane)` — the road owning the lane. -/
def Map.get_parent (m : Map) (laneId : ℕ) : Road := m.get_r (m.get_l laneId).parent

/-- The pathfinding modes (`PathConstraints`). -/
inductive PathConstraints where
  | Car
  | Bike
  | Bus
  | Pedestrian
deriving DecidableEq, Repr

/-- Modelled from the spec (the `can_use` implementation is not under `src/`):
mode feasibility of a lane.  Car uses general driving lanes; Bike uses
dedicated bike lanes, bus lanes usable by bikes, and driving lanes (spec
§4.2); Bus uses dedicated bus lanes and driving lanes.  Pedestrian routing is
handled by a different collaborator; sidewalks are its domain. -/
def canUse (c : PathConstraints) (l : Lane) : Bool :=
  match c with
  | .Car => l.is_driving
  | .Bike => l.is_biking || l.is_bus || l.is_driving
  | .Bus => l.is_bus || l.is_driving
  | .Pedestrian => l.is_sidewalk

/-- Modelled from the spec (`Map::get_turns_for` is not under `src/`):
"per-lane outgoing turns already filtered by mode feasibility" — the turns
leaving lane `l` whose destination lane the mode can use. -/
def turnsFor (m : Map) (l : Lane) (c : PathConstraints) : List Turn :=
  m.turns.filter (fun t => t.id.src == l.id && canUse c (m.get_l t.id.dst))

/-- `f64::round() as usize` for the non-negative quantities of the cost
function: nearest integer, halves up.  Implemented on the rational
representation so that it evaluates by kernel reduction; `roundUsize_eq`
below identifies it with Mathlib's `round`. -/
def roundUsize (q : ℚ) : ℕ := ((q.num * 2 + q.den) / (2 * (q.den : ℤ))).toNat

/-- The `cost` function of driving.rs, embedded faithfully.  The `assert!`
calls in the Bike/Bus arms and the `unreachable!()` in the Pedestrian arm are
modelled as `none` (a panic). -/
def cost (lane : Lane) (turn : Turn) (constraints : PathConstraints) (map : Map) :
    Option ℕ :=
  match constraints with
  | .Car =>
    -- Prefer slightly longer route on faster roads
    let t1 := lane.length / (map.get_r lane.parent).speed_limit
    let t2 := turn.geomLength / (map.get_parent turn.id.dst).speed_limit
    some (roundUsize (t1 + t2))
  | .Bike =>
    -- Speed limits don't matter
    let dist := lane.length + turn.geomLength
    let lt_penalty : Option ℚ :=
      if lane.is_biking then some 1
      else if lane.is_bus then some (11 / 10)
      else if lane.is_driving then some (3 / 2)
      else none  -- assert!(lane.is_driving())
    lt_penalty.map (fun p => roundUsize (p * dist))
  | .Bus =>
    -- Like Car, but prefer bus lanes.
    let t1 := lane.length / (map.get_r lane.parent).speed_limit
    let t2 := turn.geomLength / (map.get_parent turn.id.dst).speed_limit
    let lt_penalty : Option ℚ :=
      if lane.is_bus then some 1
      else if lane.is_driving then some (11 / 10)
      else none  -- assert!(lane.is_driving())
    lt_penalty.map (fun p => roundUsize (p * (t1 + t2)))
  | .Pedestrian => none  -- unreachable!()

/-! ### The `fast_paths` library, modelled from the spec (not under `src/`) -/

/-- A directed edge of the frozen input graph. -/
structure Edge where
  src : ℕ
  dst : ℕ
  w : ℕ
deriving DecidableEq, Repr

/-- The frozen input graph (`fast_paths::InputGraph` after `freeze()`). -/
structure InputGraph where
  edges : List Edge
deriving DecidableEq, Repr

/-- `InputGraph::get_num_nodes`: one plus the largest node id mentioned by
an edge (`fast_paths` tracks the maximum id seen by `add_edge`). -/
def InputGraph.numNodes (g : InputGraph) : ℕ :=
  g.edges.foldr (fun e m => max (max (e.src + 1) (e.dst + 1)) m) 0

/-- Weight of the edge from `u` to `v`, if any.  The graphs built by this
core never contain two parallel edges between the same pair of nodes (a turn
is determined by its source and destination lanes), so the first match is
the minimum. -/
def edgeW (g : List Edge) (u v : ℕ) : Option ℕ :=
  (g.find? (fun e => e.src == u && e.dst == v)).map Edge.w

/-- Total weight of the walk continuing from node `prev` through the given
nodes; `none` if some hop has no edge. -/
def walkWAux (g : List Edge) (prev : ℕ) : List ℕ → Option ℕ
  | [] => some 0
  | v :: rest => (edgeW g prev v).bind (fun w => (walkWAux g v rest).map (w + ·))

/-- Total weight of a node sequence as a walk in `g`: `none` for the empty
sequence or when some hop is missing, `some` of the total weight otherwise. -/
def walkW (g : List Edge) : List ℕ → Option ℕ
  | [] => none
  | u :: rest => walkWAux g u rest

/-- Duplicate test, by structural recursion. -/
def nodupB : List ℕ → Bool
  | [] => true
  | x :: xs => !(xs.contains x) && nodupB xs

/-- All sequences of length `k` over the alphabet `0..n-1`. -/
def allSeqsLen (n : ℕ) : ℕ → List (List ℕ)
  | 0 => [[]]
  | k + 1 => ((List.range n).map (fun x => (allSeqsLen n k).map (x :: ·))).flatten

/-- All duplicate-free sequences over the nodes `0..n-1` (their length is at
most `n`). -/
def allNodupSeqs (n : ℕ) : List (List ℕ) :=
  (((List.range (n + 1)).map (fun k => allSeqsLen n k)).flatten).filter nodupB

/-- The duplicate-free walks from `s` to `t` in `g` with nodes below `n`.
Edge weights are non-negative naturals, so the minimum weight over all walks
from `s` to `t` is attained on one of these. -/
def candidateSeqs (g : List Edge) (n s t : ℕ) : List (List ℕ) :=
  (allNodupSeqs n).filter
    (fun seq => seq.head? == some s && seq.getLast? == some t && (walkW g seq).isSome)

/-- First element of minimal weight, starting from accumulator `acc`. -/
def pickMin : Option (List ℕ × ℕ) → List (List ℕ × ℕ) → Option (List ℕ × ℕ)
  | acc, [] => acc
  | none, x :: xs => pickMin (some x) xs
  | some y, x :: xs => pickMin (some (if x.2 < y.2 then x else y)) xs

/-- Modelled from the spec (the `fast_paths` query engine is not under
`src/`): "Returns the minimal total weight and raw node sequence, or an
explicit absence value if start and end are disconnected" — an exact
shortest-path search over the frozen graph. -/
def calcPath (g : List Edge) (n s t : ℕ) : Option (List ℕ × ℕ) :=
  pickMin none ((candidateSeqs g n s t).map (fun seq => (seq, (walkW g seq).getD 0)))

/-- The prepared hierarchy (`fast_paths::FastGraph`), modelled from the
spec: an immutable query structure answering exact shortest-path queries
over the frozen `edges`, plus the node importance `ordering` it was prepared
with (`get_node_ordering`). -/
structure FastGraph where
  edges : List Edge
  ordering : List ℕ
deriving DecidableEq, Repr

/-- Modelled from the spec: `fast_paths::prepare` computes a fresh node
importance ordering (an internal heuristic; the identity permutation stands
in for it — no claim depends on the choice). -/
def prepare (g : InputGraph) : FastGraph :=
  ⟨g.edges, List.range g.numNodes⟩

/-- Modelled from the spec: `fast_paths::prepare_with_order` reuses the
given ordering verbatim, and fails (the caller `unwrap`s) unless the
ordering covers exactly the graph's node set. -/
def prepareWithOrder (g : InputGraph) (ord : List ℕ) : Option FastGraph :=
  if ord.length = g.numNodes then some ⟨g.edges, ord⟩ else none

/-- Modelled from the spec: a query against the prepared hierarchy returns
the minimal total weight and a realizing raw node sequence, or `none` when
disconnected. -/
def calcPathFG (fg : FastGraph) (s t : ℕ) : Option (List ℕ × ℕ) :=
  calcPath fg.edges fg.ordering.length s t

/-! ### The NodeMap, modelled from the spec (`pathfind/node_map.rs` is not
under `src/`): an insertion-ordered bijection between lane ids and dense
node indices. -/

structure NodeMap where
  keys : List ℕ
deriving DecidableEq, Repr

/-- Index of `a` in the list (the dense node id of a lane); total — the core
only queries ids that were inserted. -/
def listIndexOf : List ℕ → ℕ → ℕ
  | [], _ => 0
  | x :: xs, a => if x = a then 0 else listIndexOf xs a + 1

def NodeMap.get (nm : NodeMap) (l : ℕ) : ℕ := listIndexOf nm.keys l

def NodeMap.getOrInsert (nm : NodeMap) (l : ℕ) : NodeMap × ℕ :=
  if l ∈ nm.keys then (nm, nm.get l) else (⟨nm.keys ++ [l]⟩, nm.keys.length)

/-- `NodeMap::translate`: map raw node indices back to lane ids. -/
def NodeMap.translate (nm : NodeMap) (raw : List ℕ) : List ℕ :=
  raw.map (fun i => nm.keys.getD i 0)

/-! ### driving.rs, embedded faithfully -/

/-- The inner loop of `make_input_graph`: one edge per feasible turn of the
lane. `none` models a panicking `cost` call. -/
def edgesForTurns (map : Map) (nodes : NodeMap) (c : PathConstraints) (l : Lane) :
    List Turn → Option (List Edge)
  | [] => some []
  | t :: ts =>
    match cost l t c map, edgesForTurns map nodes c l ts with
    | some w, some es => some (⟨nodes.get l.id, nodes.get t.id.dst, w⟩ :: es)
    | _, _ => none

/-- The edges contributed by one lane: none if the mode cannot use it. -/
def laneEdges (map : Map) (nodes : NodeMap) (c : PathConstraints) (l : Lane) :
    Option (List Edge) :=
  if canUse c l then edgesForTurns map nodes c l (turnsFor map l c) else some []

/-- `make_input_graph`'s loop over all lanes, including the placeholder edge:
if the structurally-last lane (`l.id.0 == num_lanes - 1`) got no edges, an
edge to node `LaneID(0)` with weight 1 is injected. -/
def makeInputGraphAux (map : Map) (nodes : NodeMap) (c : PathConstraints)
    (numLanes : ℕ) : List Lane → Option (List Edge)
  | [] => some []
  | l :: ls =>
    match laneEdges map nodes c l, makeInputGraphAux map nodes c numLanes ls with
    | some es, some rest =>
      some ((if es.isEmpty && l.id == numLanes - 1
             then [⟨nodes.get l.id, nodes.get 0, 1⟩] else es) ++ rest)
    | _, _ => none

/-- driving.rs `make_input_graph`. -/
def makeInputGraph (map : Map) (nodes : NodeMap) (c : PathConstraints) :
    Option InputGraph :=
  (makeInputGraphAux map nodes c map.lanes.length map.lanes).map InputGraph.mk

/-- The first loop of `VehiclePathfinder::new`: insert every lane as a node,
even if the lane type is wrong for the mode. -/
def buildNodeMap (map : Map) : NodeMap :=
  map.lanes.foldl (fun nm l => (nm.getOrInsert l.id).1) ⟨[]⟩

structure VehiclePathfinder where
  graph : FastGraph
  nodes : NodeMap
  constraints : PathConstraints
deriving DecidableEq, Repr

/-- driving.rs `VehiclePathfinder::new`: build the node map, the input
graph, then prepare the hierarchy — seeding from the given pathfinder's node
ordering when present.  `none` models a build-time panic. -/
def VehiclePathfinder.new (map : Map) (constraints : PathConstraints)
    (seed : Option VehiclePathfinder) : Option VehiclePathfinder :=
  let nodes := buildNodeMap map
  (makeInputGraph map nodes constraints).bind (fun input_graph =>
    match seed with
    | some s => (prepareWithOrder input_graph s.graph.ordering).map
        (fun g => ⟨g, nodes, constraints⟩)
    | none => some ⟨prepare input_graph, nodes, constraints⟩)

inductive PathStep where
  | lane (l : ℕ)
  | turn (t : TurnID)
deriving DecidableEq, Repr

/-- A position on a lane (`Position`): the lane and the offset along it. -/
structure Position where
  lane : ℕ
  distAlong : ℚ
deriving DecidableEq, Repr

/-- A routing query (`PathRequest`): start and end positions.  (`end` is a
Lean keyword, hence `endPos`.) -/
structure PathRequest where
  start : Position
  endPos : Position
deriving DecidableEq, Repr

/-- Modelled from the spec (`Path::new` is not under `src/`): a `Path`
stores the ordered Lane/Turn steps, the end offset from the request, and the
total cost value handed to the constructor. -/
structure Path where
  steps : List PathStep
  endDist : ℚ
  cost : ℚ
deriving DecidableEq, Repr

def Path.get_steps (p : Path) : List PathStep := p.steps

/-- Result of `pathfind`, with the `assert!` failure modelled explicitly. -/
inductive PathfindOutcome where
  | panicked
  | result (r : Option Path)
deriving DecidableEq, Repr

/-- The `for pair in ...windows(2)` loop of `pathfind`: a Lane step and a
synthesized Turn step per consecutive pair. -/
def windowsStepsAux (map : Map) (a : ℕ) : List ℕ → List PathStep
  | [] => []
  | b :: rest =>
    PathStep.lane a :: PathStep.turn ⟨(map.get_l a).dst_i, a, b⟩ :: windowsStepsAux map b rest

/-- Step assembly of `pathfind`: the windows loop over the translated raw
node sequence, then the final `PathStep::Lane(req.end.lane())`. -/
def buildSteps (map : Map) (lanes : List ℕ) (endLane : ℕ) : List PathStep :=
  (match lanes with
   | [] => []
   | a :: rest => windowsStepsAux map a rest) ++ [PathStep.lane endLane]

/-- Modelled from the repository's map accessors (not under `src/`):
`map.get_t` indexes the turn table by id and panics (`none` here) when the
turn does not exist — which can happen for the TurnID that `pathfind`
fabricates across the placeholder edge. -/
def Map.get_t (m : Map) (t : TurnID) : Option Turn :=
  m.turns.find? (fun turn => turn.id == t)

/-- Modelled from the spec (`find_closest_lane` is not under `src/`): the
dedicated bike lane parallel to the given lane (on the same owning road),
when one exists (`Ok`), else `Err` (`none` here). -/
def find_closest_lane (m : Map) (laneId : ℕ) : Option ℕ :=
  ((m.lanes.filter (fun l2 =>
    l2.parent == (m.get_l laneId).parent && l2.is_biking)).head?).map Lane.id

/-- One `windows(2)` pair of `check_bike_route` (driving.rs): on a
(Turn, Lane) pair the turn is looked up first (`map.get_t(t)` — a panic if
it is absent from the turn table), biking lanes are then skipped, and when a
parallel dedicated bike lane exists both costs are computed for the report —
a `cost` panic (its `assert!`) propagates.  `some ()` is normal
continuation; the `println!` output itself is dropped. -/
def checkBikePair (map : Map) (s0 s1 : PathStep) : Option Unit :=
  match s0, s1 with
  | PathStep.turn t, PathStep.lane l =>
    match map.get_t t with
    | none => none
    | some turn =>
      if (map.get_l l).is_biking then some ()
      else
        match find_closest_lane map l with
        | some pbl =>
          match cost (map.get_l l) turn .Bike map, cost (map.get_l pbl) turn .Bike map with
          | some _, some _ => some ()
          | _, _ => none
        | none => some ()
  | _, _ => some ()

def checkBikeAux (map : Map) (prev : PathStep) : List PathStep → Option Unit
  | [] => some ()
  | s :: rest => (checkBikePair map prev s).bind (fun _ => checkBikeAux map s rest)

/-- driving.rs `check_bike_route`: the Bike-mode diagnostic over the
`windows(2)` pairs of the path's steps.  Its reporting is observationally
`some ()`, but the panics reachable inside it are kept (`none`). -/
def check_bike_route (p : Path) (map : Map) : Option Unit :=
  match p.get_steps with
  | [] => some ()
  | s :: rest => checkBikeAux map s rest

/-- driving.rs `VehiclePathfinder::pathfind`.  The `assert!` checks only
that the start lane is not a sidewalk.  The cost handed to `Path::new` is
`Distance::centimeters(raw_path.get_weight())`, i.e. the raw weight divided
by 100, for every mode.  When the constraints are Bike, `check_bike_route`
runs over the assembled path before it is returned; its panic paths are
modelled (`PathfindOutcome.panicked`). -/
def VehiclePathfinder.pathfind (pf : VehiclePathfinder) (req : PathRequest)
    (map : Map) : PathfindOutcome :=
  if (map.get_l req.start.lane).is_sidewalk then PathfindOutcome.panicked
  else
    match calcPathFG pf.graph (pf.nodes.get req.start.lane) (pf.nodes.get req.endPos.lane) with
    | none => PathfindOutcome.result none
    | some (raw, w) =>
      let lanes := pf.nodes.translate raw
      let steps := buildSteps map lanes req.endPos.lane
      let path : Path := ⟨steps, req.endPos.distAlong, (w : ℚ) / 100⟩
      if pf.constraints = PathConstraints.Bike then
        match check_bike_route path map with
        | none => PathfindOutcome.panicked
        | some _ => PathfindOutcome.result (some path)
      else PathfindOutcome.result (some path)

/-- driving.rs `VehiclePathfinder::apply_edits`: rebuild the input graph
with the existing NodeMap, prepare with the existing node ordering, and
replace the graph; `nodes` and `constraints` are untouched. -/
def VehiclePathfinder.apply_edits (pf : VehiclePathfinder) (map : Map) :
    Option VehiclePathfinder :=
  (makeInputGraph map pf.nodes pf.constraints).bind (fun input_graph =>
    (prepareWithOrder input_graph pf.graph.ordering).map
      (fun g => ⟨g, pf.nodes, pf.constraints⟩))

/-! ### Claim-side (spec) notions -/

/-- The claim-side notion of a mode-feasible hop: a turn of the map between
two lanes the mode can use, weighted by the cost function (`cost` returns a
value whenever `canUse` holds, so the `getD` default is never exercised). -/
def specFeasibleEdges (map : Map) (c : PathConstraints) : List Edge :=
  map.turns.filterMap (fun t =>
    if canUse c (map.get_l t.id.src) && canUse c (map.get_l t.id.dst) then
      some ⟨t.id.src, t.id.dst, (cost (map.get_l t.id.src) t c map).getD 0⟩
    else none)

/-- A mode-feasible lane/turn path from `s` to `t`: a walk over the map's
feasible turns. -/
def FeasibleWalk (map : Map) (c : PathConstraints) (s t : ℕ) (seq : List ℕ) : Prop :=
  seq.head? = some s ∧ seq.getLast? = some t ∧
    (walkW (specFeasibleEdges map c) seq).isSome = true

def stepsOkAux (prev : ℕ) : List PathStep → Bool
  | [] => true
  | PathStep.turn t :: PathStep.lane b :: rest =>
      t.src == prev && t.dst == b && stepsOkAux b rest
  | _ => false

/-- Steps strictly alternate Lane/Turn, start and end with a Lane step, and
every Turn's src/dst equal the neighbouring Lane steps. -/
def stepsOk : List PathStep → Bool
  | PathStep.lane a :: rest => stepsOkAux a rest
  | _ => false

def firstLaneOf : List PathStep → Option ℕ
  | PathStep.lane a :: _ => some a
  | _ => none

def lastLaneOf (l : List PathStep) : Option ℕ :=
  match l.getLast? with
  | some (PathStep.lane a) => some a
  | _ => none

/-- Well-formed snapshot: lane ids are exactly the positions in the lane
list (driving.rs relies on this when it tests `l.id.0 == num_lanes - 1`),
and every turn references existing lanes. -/
def wfMap (map : Map) : Prop :=
  map.lanes.map Lane.id = List.range map.lanes.length ∧
  ∀ t ∈ map.turns, t.id.src < map.lanes.length ∧ t.id.dst < map.lanes.length

instance (m : Map) : Decidable (wfMap m) :=
  inferInstanceAs (Decidable (m.lanes.map Lane.id = List.range m.lanes.length ∧
    ∀ t ∈ m.turns, t.id.src < m.lanes.length ∧ t.id.dst < m.lanes.length))

/-! ### Concrete networks used to settle the claims -/

/-- Scenario A of the spec: three driving lanes `0 → 1 → 2`, each 100 m,
connecting turns 5 m, uniform 13 m/s speed limit. -/
def map3 : Map where
  lanes := [⟨0, .driving, 100, 0, 10⟩, ⟨1, .driving, 100, 1, 11⟩, ⟨2, .driving, 100, 2, 12⟩]
  roads := [⟨13⟩, ⟨13⟩, ⟨13⟩]
  turns := [⟨⟨10, 0, 1⟩, 5⟩, ⟨⟨11, 1, 2⟩, 5⟩]

/-- Four driving lanes (100 m, 10 m/s roads, 5 m turns).  Turns: `1 → 2`,
`1 → 3`, `2 → 0`.  Lane 3 is the structurally-last lane and has no outgoing
turn, so `make_input_graph` injects the placeholder edge `3 → 0` of weight 1,
which then undercuts the only feasible route `1 → 2 → 0`. -/
def map1 : Map where
  lanes := [⟨0, .driving, 100, 0, 20⟩, ⟨1, .driving, 100, 1, 21⟩,
            ⟨2, .driving, 100, 2, 22⟩, ⟨3, .driving, 100, 3, 23⟩]
  roads := [⟨10⟩, ⟨10⟩, ⟨10⟩, ⟨10⟩]
  turns := [⟨⟨21, 1, 2⟩, 5⟩, ⟨⟨21, 1, 3⟩, 5⟩, ⟨⟨22, 2, 0⟩, 5⟩]

/-- Three driving lanes (100 m, 10 m/s, 5 m turn), single turn `1 → 2`.
Lane 0 is unreachable by any feasible turn path, but the placeholder edge
`2 → 0` connects the graph anyway. -/
def map8 : Map where
  lanes := [⟨0, .driving, 100, 0, 30⟩, ⟨1, .driving, 100, 1, 31⟩, ⟨2, .driving, 100, 2, 32⟩]
  roads := [⟨10⟩, ⟨10⟩, ⟨10⟩]
  turns := [⟨⟨31, 1, 2⟩, 5⟩]

/-- A bike lane (id 0) and a driving lane (id 1), no turns: the bike lane is
infeasible for a Car pathfinder but is not a sidewalk. -/
def map7 : Map where
  lanes := [⟨0, .biking, 100, 0, 40⟩, ⟨1, .driving, 100, 1, 41⟩]
  roads := [⟨10⟩, ⟨10⟩]
  turns := []

/-- A one-lane map whose only lane is a sidewalk, for the assert case. -/
def mapSide : Map where
  lanes := [⟨0, .sidewalk, 100, 0, 50⟩]
  roads := [⟨10⟩]
  turns := []

/-- `req3`: the A-to-C request of Scenario A, ending 7 m along lane 2. -/
def req3 : PathRequest := ⟨⟨0, 0⟩, ⟨2, 7⟩⟩

/-- The request from lane 1 to lane 0, used on `map1` and `map8`. -/
def req10 : PathRequest := ⟨⟨1, 0⟩, ⟨0, 0⟩⟩

/-- The request starting on `map7`'s bike lane. -/
def req7 : PathRequest := ⟨⟨0, 0⟩, ⟨1, 0⟩⟩

/-- The request starting on `mapSide`'s sidewalk. -/
def reqSide : PathRequest := ⟨⟨0, 0⟩, ⟨0, 0⟩⟩

/-! ## Theorems.  First, evaluation rules for the rounding function. -/

theorem roundUsize_eq (q : ℚ) : roundUsize q = (round q).toNat := by
  have hd : ((q.den : ℚ)) ≠ 0 := by
    exact_mod_cast q.den_nz
  have hden2 : (((2 * q.den : ℕ) : ℕ) : ℚ) ≠ 0 := by
    have : (0 : ℚ) < ((2 * q.den : ℕ) : ℚ) := by
      exact_mod_cast Nat.mul_pos (by norm_num) q.pos
    exact ne_of_gt this
  have hmul : q * ((q.den : ℕ) : ℚ) = ((q.num : ℤ) : ℚ) := by
    nth_rewrite 1 [← Rat.num_div_den q]
    exact div_mul_cancel₀ _ hd
  have hq : q + 1 / 2 = ((q.num * 2 + (q.den : ℤ) : ℤ) : ℚ) / (((2 * q.den : ℕ) : ℕ) : ℚ) := by
    rw [eq_div_iff hden2]
    push_cast
    calc (q + 1 / 2) * (2 * ((q.den : ℕ) : ℚ)) = q * ((q.den : ℕ) : ℚ) * 2 + q.den := by ring
      _ = ((q.num : ℤ) : ℚ) * 2 + q.den := by rw [hmul]
  unfold roundUsize
  rw [round_eq, hq, Rat.floor_intCast_div_natCast]
  congr 1

/-- Evaluation rule for `roundUsize` on an explicit fraction of naturals;
this is how all concrete edge weights are computed. -/
theorem roundUsize_div (n d : ℕ) : roundUsize ((n : ℚ) / (d : ℚ)) = (2 * n + d) / (2 * d) := by
  rcases Nat.eq_zero_or_pos d with hd | hd
  · subst hd
    simp [roundUsize]
  · have hdq : ((d : ℚ)) ≠ 0 := by
      exact_mod_cast hd.ne'
    have hq : (n : ℚ) / (d : ℚ) + 1 / 2 = ((2 * n + d : ℕ) : ℚ) / ((2 * d : ℕ) : ℚ) := by
      push_cast
      field_simp
      ring
    rw [roundUsize_eq, round_eq, hq, Rat.floor_natCast_div_natCast]
    exact Int.toNat_natCast _

/-! ### Evaluation of the pipeline on `map3` (spec Scenario A) -/

theorem map3_lanes : map3.lanes =
    [⟨0, .driving, 100, 0, 10⟩, ⟨1, .driving, 100, 1, 11⟩, ⟨2, .driving, 100, 2, 12⟩] := rfl

theorem map3_turns : map3.turns = [⟨⟨10, 0, 1⟩, 5⟩, ⟨⟨11, 1, 2⟩, 5⟩] := rfl

theorem map3_nodes : buildNodeMap map3 = ⟨[0, 1, 2]⟩ := by decide

theorem cost3a : cost ⟨0, LaneType.driving, 100, 0, 10⟩ ⟨⟨10, 0, 1⟩, 5⟩ .Car map3 = some 8 := by
  simp [cost, map3, Map.get_r, Map.get_parent, Map.get_l]
  rw [show ((100 : ℚ) / 13 + 5 / 13) = ((105 : ℕ) : ℚ) / ((13 : ℕ) : ℚ) by norm_num,
    roundUsize_div]

theorem cost3b : cost ⟨1, LaneType.driving, 100, 1, 11⟩ ⟨⟨11, 1, 2⟩, 5⟩ .Car map3 = some 8 := by
  simp [cost, map3, Map.get_r, Map.get_parent, Map.get_l]
  rw [show ((100 : ℚ) / 13 + 5 / 13) = ((105 : ℕ) : ℚ) / ((13 : ℕ) : ℚ) by norm_num,
    roundUsize_div]

theorem map3_graph : makeInputGraph map3 ⟨[0, 1, 2]⟩ .Car =
    some ⟨[⟨0, 1, 8⟩, ⟨1, 2, 8⟩, ⟨2, 0, 1⟩]⟩ := by
  simp [makeInputGraph, makeInputGraphAux, laneEdges, edgesForTurns, turnsFor, canUse,
    Lane.is_driving, Lane.is_biking, Lane.is_bus, Lane.is_sidewalk, map3_lanes, map3_turns,
    Map.get_l, NodeMap.get, listIndexOf, cost3a, cost3b]

theorem map3_new : VehiclePathfinder.new map3 .Car none =
    some ⟨⟨[⟨0, 1, 8⟩, ⟨1, 2, 8⟩, ⟨2, 0, 1⟩], [0, 1, 2]⟩, ⟨[0, 1, 2]⟩, .Car⟩ := by
  simp only [VehiclePathfinder.new, map3_nodes, map3_graph]
  decide

theorem map3_path : (VehiclePathfinder.new map3 .Car none).map
    (fun pf => pf.pathfind req3 map3) =
    some (PathfindOutcome.result (some ⟨[PathStep.lane 0, PathStep.turn ⟨10, 0, 1⟩,
      PathStep.lane 1, PathStep.turn ⟨11, 1, 2⟩, PathStep.lane 2], 7, (16 : ℚ) / 100⟩)) := by
  rw [map3_new]
  simp only [Option.map_some']
  rw [VehiclePathfinder.pathfind]
  rw [show calcPathFG ⟨[⟨0, 1, 8⟩, ⟨1, 2, 8⟩, ⟨2, 0, 1⟩], [0, 1, 2]⟩
      (NodeMap.get ⟨[0, 1, 2]⟩ req3.start.lane) (NodeMap.get ⟨[0, 1, 2]⟩ req3.endPos.lane) =
      some ([0, 1, 2], 16) from by decide]
  simp [Map.get_l, map3_lanes, Lane.is_sidewalk, NodeMap.translate, buildSteps,
    windowsStepsAux, req3]

theorem map1_lanes : map1.lanes =
    [⟨0, .driving, 100, 0, 20⟩, ⟨1, .driving, 100, 1, 21⟩,
     ⟨2, .driving, 100, 2, 22⟩, ⟨3, .driving, 100, 3, 23⟩] := rfl

theorem map1_turns : map1.turns = [⟨⟨21, 1, 2⟩, 5⟩, ⟨⟨21, 1, 3⟩, 5⟩, ⟨⟨22, 2, 0⟩, 5⟩] := rfl

theorem map1_nodes : buildNodeMap map1 = ⟨[0, 1, 2, 3]⟩ := by decide

theorem cost1a : cost ⟨1, LaneType.driving, 100, 1, 21⟩ ⟨⟨21, 1, 2⟩, 5⟩ .Car map1 = some 11 := by
  simp [cost, map1, Map.get_r, Map.get_parent, Map.get_l]
  rw [show ((100 : ℚ) / 10 + 5 / 10) = ((21 : ℕ) : ℚ) / ((2 : ℕ) : ℚ) by norm_num,
    roundUsize_div]

theorem cost1b : cost ⟨1, LaneType.driving, 100, 1, 21⟩ ⟨⟨21, 1, 3⟩, 5⟩ .Car map1 = some 11 := by
  simp [cost, map1, Map.get_r, Map.get_parent, Map.get_l]
  rw [show ((100 : ℚ) / 10 + 5 / 10) = ((21 : ℕ) : ℚ) / ((2 : ℕ) : ℚ) by norm_num,
    roundUsize_div]

theorem cost1c : cost ⟨2, LaneType.driving, 100, 2, 22⟩ ⟨⟨22, 2, 0⟩, 5⟩ .Car map1 = some 11 := by
  simp [cost, map1, Map.get_r, Map.get_parent, Map.get_l]
  rw [show ((100 : ℚ) / 10 + 5 / 10) = ((21 : ℕ) : ℚ) / ((2 : ℕ) : ℚ) by norm_num,
    roundUsize_div]

theorem map1_graph : makeInputGraph map1 ⟨[0, 1, 2, 3]⟩ .Car =
    some ⟨[⟨1, 2, 11⟩, ⟨1, 3, 11⟩, ⟨2, 0, 11⟩, ⟨3, 0, 1⟩]⟩ := by
  simp [makeInputGraph, makeInputGraphAux, laneEdges, edgesForTurns, turnsFor, canUse,
    Lane.is_driving, Lane.is_biking, Lane.is_bus, Lane.is_sidewalk, map1_lanes, map1_turns,
    Map.get_l, NodeMap.get, listIndexOf, cost1a, cost1b, cost1c]

theorem map1_new : VehiclePathfinder.new map1 .Car none =
    some ⟨⟨[⟨1, 2, 11⟩, ⟨1, 3, 11⟩, ⟨2, 0, 11⟩, ⟨3, 0, 1⟩], [0, 1, 2, 3]⟩, ⟨[0, 1, 2, 3]⟩, .Car⟩ := by
  simp only [VehiclePathfinder.new, map1_nodes, map1_graph]
  decide

theorem map1_path : (VehiclePathfinder.new map1 .Car none).map
    (fun pf => pf.pathfind req10 map1) =
    some (PathfindOutcome.result (some ⟨[PathStep.lane 1, PathStep.turn ⟨21, 1, 3⟩,
      PathStep.lane 3, PathStep.turn ⟨23, 3, 0⟩, PathStep.lane 0], 0, (12 : ℚ) / 100⟩)) := by
  rw [map1_new]
  simp only [Option.map_some']
  rw [VehiclePathfinder.pathfind]
  rw [show calcPathFG ⟨[⟨1, 2, 11⟩, ⟨1, 3, 11⟩, ⟨2, 0, 11⟩, ⟨3, 0, 1⟩], [0, 1, 2, 3]⟩
      (NodeMap.get ⟨[0, 1, 2, 3]⟩ req10.start.lane) (NodeMap.get ⟨[0, 1, 2, 3]⟩ req10.endPos.lane) =
      some ([1, 3, 0], 12) from by decide]
  simp [Map.get_l, map1_lanes, Lane.is_sidewalk, NodeMap.translate, buildSteps,
    windowsStepsAux, req10]

theorem map1_spec_edges : specFeasibleEdges map1 .Car = [⟨1, 2, 11⟩, ⟨1, 3, 11⟩, ⟨2, 0, 11⟩] := by
  simp [specFeasibleEdges, map1_turns, canUse, Lane.is_driving, Map.get_l, map1_lanes,
    cost1a, cost1b, cost1c]

theorem map8_lanes : map8.lanes =
    [⟨0, .driving, 100, 0, 30⟩, ⟨1, .driving, 100, 1, 31⟩, ⟨2, .driving, 100, 2, 32⟩] := rfl

theorem map8_turns : map8.turns = [⟨⟨31, 1, 2⟩, 5⟩] := rfl

theorem map8_nodes : buildNodeMap map8 = ⟨[0, 1, 2]⟩ := by decide

theorem cost8a : cost ⟨1, LaneType.driving, 100, 1, 31⟩ ⟨⟨31, 1, 2⟩, 5⟩ .Car map8 = some 11 := by
  simp [cost, map8, Map.get_r, Map.get_parent, Map.get_l]
  rw [show ((100 : ℚ) / 10 + 5 / 10) = ((21 : ℕ) : ℚ) / ((2 : ℕ) : ℚ) by norm_num,
    roundUsize_div]

theorem map8_graph : makeInputGraph map8 ⟨[0, 1, 2]⟩ .Car =
    some ⟨[⟨1, 2, 11⟩, ⟨2, 0, 1⟩]⟩ := by
  simp [makeInputGraph, makeInputGraphAux, laneEdges, edgesForTurns, turnsFor, canUse,
    Lane.is_driving, Lane.is_biking, Lane.is_bus, Lane.is_sidewalk, map8_lanes, map8_turns,
    Map.get_l, NodeMap.get, listIndexOf, cost8a]

theorem map8_new : VehiclePathfinder.new map8 .Car none =
    some ⟨⟨[⟨1, 2, 11⟩, ⟨2, 0, 1⟩], [0, 1, 2]⟩, ⟨[0, 1, 2]⟩, .Car⟩ := by
  simp only [VehiclePathfinder.new, map8_nodes, map8_graph]
  decide

theorem map8_path : (VehiclePathfinder.new map8 .Car none).map
    (fun pf => pf.pathfind req10 map8) =
    some (PathfindOutcome.result (some ⟨[PathStep.lane 1, PathStep.turn ⟨31, 1, 2⟩,
      PathStep.lane 2, PathStep.turn ⟨32, 2, 0⟩, PathStep.lane 0], 0, (12 : ℚ) / 100⟩)) := by
  rw [map8_new]
  simp only [Option.map_some']
  rw [VehiclePathfinder.pathfind]
  rw [show calcPathFG ⟨[⟨1, 2, 11⟩, ⟨2, 0, 1⟩], [0, 1, 2]⟩
      (NodeMap.get ⟨[0, 1, 2]⟩ req10.start.lane) (NodeMap.get ⟨[0, 1, 2]⟩ req10.endPos.lane) =
      some ([1, 2, 0], 12) from by decide]
  simp [Map.get_l, map8_lanes, Lane.is_sidewalk, NodeMap.translate, buildSteps,
    windowsStepsAux, req10]

theorem map8_spec_edges : specFeasibleEdges map8 .Car = [⟨1, 2, 11⟩] := by
  simp [specFeasibleEdges, map8_turns, canUse, Lane.is_driving, Map.get_l, map8_lanes, cost8a]

theorem cost8bike : cost ⟨1, LaneType.driving, 100, 1, 31⟩ ⟨⟨31, 1, 2⟩, 5⟩ .Bike map8 =
    some 158 := by
  simp [cost, Lane.is_biking, Lane.is_bus, Lane.is_driving]
  rw [show ((3 : ℚ) / 2 * (100 + 5)) = ((315 : ℕ) : ℚ) / ((2 : ℕ) : ℚ) by norm_num,
    roundUsize_div]

theorem map8_bike_graph : makeInputGraph map8 ⟨[0, 1, 2]⟩ .Bike =
    some ⟨[⟨1, 2, 158⟩, ⟨2, 0, 1⟩]⟩ := by
  simp [makeInputGraph, makeInputGraphAux, laneEdges, edgesForTurns, turnsFor, canUse,
    Lane.is_driving, Lane.is_biking, Lane.is_bus, Lane.is_sidewalk, map8_lanes, map8_turns,
    Map.get_l, NodeMap.get, listIndexOf, cost8bike]

theorem map8_bike_new : VehiclePathfinder.new map8 .Bike none =
    some ⟨⟨[⟨1, 2, 158⟩, ⟨2, 0, 1⟩], [0, 1, 2]⟩, ⟨[0, 1, 2]⟩, .Bike⟩ := by
  simp only [VehiclePathfinder.new, map8_nodes, map8_bike_graph]
  decide

/-- The `check_bike_route` panic path is live: a Bike-mode query on `map8`
from lane 1 to lane 0 is routed across the placeholder edge 2→0, and the
diagnostic's `map.get_t` lookup of the fabricated turn 2→0 panics, although
the start lane is not a sidewalk. -/
theorem map8_bike_panic : ((VehiclePathfinder.new map8 .Bike none).map
    (fun pf => pf.pathfind req10 map8)) = some PathfindOutcome.panicked ∧
    (map8.get_l req10.start.lane).is_sidewalk = false := by
  refine ⟨?_, by decide⟩
  rw [map8_bike_new]
  simp only [Option.map_some']
  exact congrArg some (by decide)

theorem map7_new : VehiclePathfinder.new map7 .Car none =
    some ⟨⟨[⟨1, 0, 1⟩], [0, 1]⟩, ⟨[0, 1]⟩, .Car⟩ := by decide

theorem map7_result : (VehiclePathfinder.new map7 .Car none).map
    (fun pf => pf.pathfind req7 map7) = some (PathfindOutcome.result none) := by
  rw [map7_new]
  simp only [Option.map_some']
  rw [VehiclePathfinder.pathfind]
  rw [show calcPathFG ⟨[⟨1, 0, 1⟩], [0, 1]⟩
      (NodeMap.get ⟨[0, 1]⟩ req7.start.lane) (NodeMap.get ⟨[0, 1]⟩ req7.endPos.lane) =
      none from by decide]
  simp [Map.get_l, map7, Lane.is_sidewalk, req7]

theorem mapSide_new : VehiclePathfinder.new mapSide .Car none =
    some ⟨⟨[⟨0, 0, 1⟩], [0]⟩, ⟨[0]⟩, .Car⟩ := by decide

theorem mapSide_result : (VehiclePathfinder.new mapSide .Car none).map
    (fun pf => pf.pathfind reqSide mapSide) = some PathfindOutcome.panicked := by
  rw [mapSide_new]
  simp only [Option.map_some']
  rw [VehiclePathfinder.pathfind]
  simp [Map.get_l, mapSide, Lane.is_sidewalk, reqSide]

/-! ### Generic lemmas about the shortest-path model -/

theorem pickMin_mem : ∀ (l : List (List ℕ × ℕ)) (acc r : Option (List ℕ × ℕ)),
    pickMin acc l = r → r.isSome → r = acc ∨ ∃ x ∈ l, r = some x := by
  intro l
  induction l with
  | nil =>
    intro acc r h _
    simp only [pickMin] at h
    exact Or.inl h.symm
  | cons x xs ih =>
    intro acc r h hs
    cases acc with
    | none =>
      rcases ih (some x) r h hs with h1 | ⟨y, hy, h2⟩
      · exact Or.inr ⟨x, List.mem_cons_self x xs, h1⟩
      · exact Or.inr ⟨y, List.mem_cons_of_mem _ hy, h2⟩
    | some a =>
      rcases ih (some (if x.2 < a.2 then x else a)) r h hs with h1 | ⟨y, hy, h2⟩
      · by_cases hc : x.2 < a.2
        · rw [if_pos hc] at h1
          exact Or.inr ⟨x, List.mem_cons_self x xs, h1⟩
        · rw [if_neg hc] at h1
          exact Or.inl h1
      · exact Or.inr ⟨y, List.mem_cons_of_mem _ hy, h2⟩

theorem pickMin_le : ∀ (l : List (List ℕ × ℕ)) (acc : Option (List ℕ × ℕ))
    (r : List ℕ × ℕ), pickMin acc l = some r →
    (∀ x ∈ l, r.2 ≤ x.2) ∧ (∀ y, acc = some y → r.2 ≤ y.2) := by
  intro l
  induction l with
  | nil =>
    intro acc r h
    simp only [pickMin] at h
    refine ⟨(by intro x hx; cases hx), ?_⟩
    intro y hy
    rw [hy] at h
    cases h
    exact le_refl _
  | cons x xs ih =>
    intro acc r h
    cases acc with
    | none =>
      obtain ⟨h1, h2⟩ := ih (some x) r h
      have hx := h2 x rfl
      refine ⟨?_, fun y hy => by cases hy⟩
      intro z hz
      rcases List.mem_cons.1 hz with rfl | hz
      · exact hx
      · exact h1 z hz
    | some a =>
      obtain ⟨h1, h2⟩ := ih (some (if x.2 < a.2 then x else a)) r h
      have hmin := h2 _ rfl
      have hminx : r.2 ≤ x.2 := by
        by_cases hc : x.2 < a.2
        · rw [if_pos hc] at hmin
          exact hmin
        · rw [if_neg hc] at hmin
          omega
      have hmina : r.2 ≤ a.2 := by
        by_cases hc : x.2 < a.2
        · rw [if_pos hc] at hmin
          omega
        · rw [if_neg hc] at hmin
          exact hmin
      refine ⟨?_, ?_⟩
      · intro z hz
        rcases List.mem_cons.1 hz with rfl | hz
        · exact hminx
        · exact h1 z hz
      · intro y hy
        cases hy
        exact hmina

theorem mem_allSeqsLen (n : ℕ) : ∀ (k : ℕ) (seq : List ℕ),
    seq ∈ allSeqsLen n k → ∀ x ∈ seq, x < n := by
  intro k
  induction k with
  | zero =>
    intro seq h x hx
    simp [allSeqsLen] at h
    subst h
    cases hx
  | succ k ih =>
    intro seq h x hx
    simp only [allSeqsLen, List.mem_flatten, List.mem_map] at h
    rcases h with ⟨l, ⟨y, hy, rfl⟩, hseq⟩
    rcases List.mem_map.1 hseq with ⟨seq0, hseq0, rfl⟩
    rcases List.mem_cons.1 hx with rfl | hx0
    · exact List.mem_range.1 hy
    · exact ih seq0 hseq0 x hx0

theorem mem_allNodupSeqs (n : ℕ) (seq : List ℕ) (h : seq ∈ allNodupSeqs n) :
    ∀ x ∈ seq, x < n := by
  unfold allNodupSeqs at h
  have hmem := List.mem_of_mem_filter h
  simp only [List.mem_flatten, List.mem_map] at hmem
  rcases hmem with ⟨l, ⟨k, _, rfl⟩, hseq⟩
  exact mem_allSeqsLen n k seq hseq

theorem mem_candidateSeqs (g : List Edge) (n s t : ℕ) (seq : List ℕ)
    (h : seq ∈ candidateSeqs g n s t) :
    seq.head? = some s ∧ seq.getLast? = some t ∧ (walkW g seq).isSome = true ∧
      ∀ x ∈ seq, x < n := by
  unfold candidateSeqs at h
  have hb := List.of_mem_filter h
  have hmem := List.mem_of_mem_filter h
  simp only [Bool.and_eq_true, beq_iff_eq] at hb
  exact ⟨hb.1.1, hb.1.2, hb.2, mem_allNodupSeqs n seq hmem⟩

theorem calcPath_eq_some (g : List Edge) (n s t : ℕ) (seq : List ℕ) (w : ℕ)
    (h : calcPath g n s t = some (seq, w)) :
    seq ∈ candidateSeqs g n s t ∧ walkW g seq = some w ∧
      ∀ seq2 ∈ candidateSeqs g n s t, ∀ w2, walkW g seq2 = some w2 → w ≤ w2 := by
  unfold calcPath at h
  rcases pickMin_mem _ _ _ h rfl with h1 | ⟨x, hx, h2⟩
  · cases h1
  · injection h2 with h3
    subst h3
    rcases List.mem_map.1 hx with ⟨seq0, hseq0, heq⟩
    rw [Prod.mk.injEq] at heq
    obtain ⟨rfl, hw0⟩ := heq
    have hcand := mem_candidateSeqs g n s t seq0 hseq0
    obtain ⟨v, hv⟩ := Option.isSome_iff_exists.1 hcand.2.2.1
    have hveq : v = w := by
      rw [hv] at hw0
      simpa using hw0
    subst hveq
    refine ⟨hseq0, hv, ?_⟩
    intro seq2 hseq2 w2 hw2
    obtain ⟨hall, _⟩ := pickMin_le _ _ _ h
    have hx2 : (seq2, (walkW g seq2).getD 0) ∈
        List.map (fun seq => (seq, (walkW g seq).getD 0)) (candidateSeqs g n s t) :=
      List.mem_map_of_mem _ hseq2
    have := hall _ hx2
    rw [hw2] at this
    simpa using this

theorem edgeW_some (g : List Edge) (u v w : ℕ) (h : edgeW g u v = some w) :
    ∃ e ∈ g, e.src = u ∧ e.dst = v ∧ e.w = w := by
  unfold edgeW at h
  rcases hf : g.find? (fun e => e.src == u && e.dst == v) with _ | e
  · rw [hf] at h
    cases h
  · rw [hf] at h
    have hmem := List.mem_of_find?_eq_some hf
    have hp := List.find?_some hf
    simp only [Bool.and_eq_true, beq_iff_eq] at hp
    injection h with h2
    exact ⟨e, hmem, hp.1, hp.2, h2⟩

/-- Potential-function lower bound: if `phi` decreases by at most the edge
weight along every edge, every walk from `s` to `t` costs at least
`phi s - phi t`. -/
theorem walkWAux_lb (g : List Edge) (phi : ℕ → ℕ)
    (hedge : ∀ e ∈ g, phi e.src ≤ e.w + phi e.dst) :
    ∀ (rest : List ℕ) (prev t w : ℕ), walkWAux g prev rest = some w →
      (prev :: rest).getLast? = some t → phi prev ≤ w + phi t := by
  intro rest
  induction rest with
  | nil =>
    intro prev t w hw hl
    simp only [walkWAux] at hw
    injection hw with hw
    subst hw
    simp only [List.getLast?_singleton] at hl
    injection hl with hl
    subst hl
    omega
  | cons v rest ih =>
    intro prev t w hw hl
    simp only [walkWAux] at hw
    rcases he : edgeW g prev v with _ | w1
    · rw [he] at hw
      cases hw
    · rw [he] at hw
      rcases ha : walkWAux g v rest with _ | w2
      · rw [ha] at hw
        cases hw
      · rw [ha] at hw
        simp only [Option.bind_some, Option.map_some'] at hw
        injection hw with hw
        subst hw
        obtain ⟨e, hmem, hsrc, hdst, hew⟩ := edgeW_some g prev v w1 he
        have h1 : phi prev ≤ w1 + phi v := by
          have := hedge e hmem
          rw [hsrc, hdst, hew] at this
          exact this
        have hl2 : (v :: rest).getLast? = some t := by
          rw [List.getLast?_cons_cons] at hl
          exact hl
        have h2 := ih v t w2 ha hl2
        omega

theorem walkW_lb (g : List Edge) (phi : ℕ → ℕ)
    (hedge : ∀ e ∈ g, phi e.src ≤ e.w + phi e.dst)
    (seq : List ℕ) (s t w : ℕ) (h1 : seq.head? = some s)
    (h2 : seq.getLast? = some t) (hw : walkW g seq = some w) :
    phi s ≤ w + phi t := by
  cases seq with
  | nil => cases h1
  | cons u rest =>
    simp only [List.head?_cons] at h1
    injection h1 with h1
    subst h1
    exact walkWAux_lb g phi hedge rest u t w hw h2

/-- Backwards-closed reachability: if `R` holds at `t` and is preserved from
edge destination to edge source, it holds at the start of every walk to `t`. -/
theorem walkWAux_reach (g : List Edge) (R : ℕ → Bool)
    (hR : ∀ e ∈ g, R e.dst = true → R e.src = true) :
    ∀ (rest : List ℕ) (prev t : ℕ), (walkWAux g prev rest).isSome = true →
      (prev :: rest).getLast? = some t → R t = true → R prev = true := by
  intro rest
  induction rest with
  | nil =>
    intro prev t _ hl ht
    simp only [List.getLast?_singleton] at hl
    injection hl with hl
    subst hl
    exact ht
  | cons v rest ih =>
    intro prev t hw hl ht
    simp only [walkWAux] at hw
    rcases he : edgeW g prev v with _ | w1
    · rw [he] at hw
      cases hw
    · rw [he] at hw
      rcases ha : walkWAux g v rest with _ | w2
      · rw [ha] at hw
        cases hw
      · have hl2 : (v :: rest).getLast? = some t := by
          rw [List.getLast?_cons_cons] at hl
          exact hl
        have hv := ih v t (by rw [ha]; rfl) hl2 ht
        obtain ⟨e, hmem, hsrc, hdst, _⟩ := edgeW_some g prev v w1 he
        have := hR e hmem
        rw [hsrc, hdst] at this
        exact this hv

theorem walkW_reach (g : List Edge) (R : ℕ → Bool)
    (hR : ∀ e ∈ g, R e.dst = true → R e.src = true)
    (seq : List ℕ) (s t : ℕ) (h1 : seq.head? = some s)
    (h2 : seq.getLast? = some t) (hw : (walkW g seq).isSome = true)
    (ht : R t = true) : R s = true := by
  cases seq with
  | nil => cases h1
  | cons u rest =>
    simp only [List.head?_cons] at h1
    injection h1 with h1
    subst h1
    exact walkWAux_reach g R hR rest u t hw h2 ht

/-! ### Lemmas about the node map and the built graph -/

theorem listIndexOf_map_succ : ∀ (l : List ℕ) (i : ℕ),
    listIndexOf (l.map (· + 1)) (i + 1) = listIndexOf l i := by
  intro l
  induction l with
  | nil => intro i; rfl
  | cons x xs ih =>
    intro i
    simp only [List.map_cons, listIndexOf]
    by_cases h : x = i
    · subst h
      simp
    · rw [if_neg (by omega), if_neg h, ih]

theorem listIndexOf_range (n i : ℕ) (h : i < n) : listIndexOf (List.range n) i = i := by
  induction n generalizing i with
  | zero => omega
  | succ n ih =>
    rw [List.range_succ_eq_map]
    cases i with
    | zero => simp [listIndexOf]
    | succ j =>
      simp only [listIndexOf]
      rw [if_neg (by omega), listIndexOf_map_succ, ih j (by omega)]

theorem getD_range (n i : ℕ) (h : i < n) : (List.range n).getD i 0 = i := by
  rw [List.getD_eq_getElem?_getD, List.getElem?_range h]
  rfl

theorem translate_range (n : ℕ) (raw : List ℕ) (h : ∀ x ∈ raw, x < n) :
    NodeMap.translate ⟨List.range n⟩ raw = raw := by
  unfold NodeMap.translate
  conv_rhs => rw [← List.map_id raw]
  apply List.map_congr_left
  intro a ha
  simp only [id]
  exact getD_range n a (h a ha)

theorem foldl_getOrInsert_keys : ∀ (ls : List Lane) (nm : NodeMap),
    (∀ l ∈ ls, l.id ∉ nm.keys) → (ls.map Lane.id).Nodup →
    (ls.foldl (fun nm l => (nm.getOrInsert l.id).1) nm).keys = nm.keys ++ ls.map Lane.id := by
  intro ls
  induction ls with
  | nil =>
    intro nm _ _
    simp
  | cons l ls ih =>
    intro nm hnot hnodup
    simp only [List.foldl_cons]
    have hl : l.id ∉ nm.keys := hnot l (List.mem_cons_self _ _)
    have hstep : (nm.getOrInsert l.id).1 = ⟨nm.keys ++ [l.id]⟩ := by
      unfold NodeMap.getOrInsert
      rw [if_neg hl]
    rw [hstep]
    simp only [List.map_cons] at hnodup ⊢
    have hnodup2 := List.nodup_cons.1 hnodup
    rw [ih ⟨nm.keys ++ [l.id]⟩ ?_ hnodup2.2]
    · simp
    · intro l2 hl2
      simp only [List.mem_append, List.mem_singleton]
      push_neg
      refine ⟨hnot l2 (List.mem_cons_of_mem _ hl2), ?_⟩
      intro heq
      exact hnodup2.1 (heq ▸ List.mem_map_of_mem Lane.id hl2)

theorem buildNodeMap_keys (map : Map)
    (hwf : map.lanes.map Lane.id = List.range map.lanes.length) :
    (buildNodeMap map).keys = List.range map.lanes.length := by
  unfold buildNodeMap
  rw [foldl_getOrInsert_keys map.lanes ⟨[]⟩ (by intro l _ h; cases h)
    (by rw [hwf]; exact List.nodup_range _)]
  simpa using hwf

theorem numNodes_le (es : List Edge) (n : ℕ)
    (h : ∀ e ∈ es, e.src < n ∧ e.dst < n) : InputGraph.numNodes ⟨es⟩ ≤ n := by
  induction es with
  | nil =>
    simp [InputGraph.numNodes]
  | cons e es ih =>
    have h1 := h e (List.mem_cons_self _ _)
    have h2 := ih (fun e2 he2 => h e2 (List.mem_cons_of_mem _ he2))
    simp only [InputGraph.numNodes, List.foldr_cons] at h2 ⊢
    refine max_le (max_le ?_ ?_) h2 <;> omega

theorem le_numNodes (es : List Edge) (e : Edge) (he : e ∈ es) :
    e.src + 1 ≤ InputGraph.numNodes ⟨es⟩ := by
  induction es with
  | nil => cases he
  | cons e2 es ih =>
    simp only [InputGraph.numNodes, List.foldr_cons]
    rcases List.mem_cons.1 he with rfl | h
    · exact le_trans (le_max_left _ _) (le_max_left _ _)
    · exact le_trans (ih h) (le_max_right _ _)

theorem edgesForTurns_shape (map : Map) (nodes : NodeMap) (c : PathConstraints) (l : Lane) :
    ∀ (ts : List Turn) (es : List Edge), edgesForTurns map nodes c l ts = some es →
    ∀ e ∈ es, ∃ t ∈ ts, e.src = nodes.get l.id ∧ e.dst = nodes.get t.id.dst := by
  intro ts
  induction ts with
  | nil =>
    intro es h e he
    simp only [edgesForTurns] at h
    injection h with h
    subst h
    cases he
  | cons t ts ih =>
    intro es h e he
    simp only [edgesForTurns] at h
    rcases hc : cost l t c map with _ | w <;> rw [hc] at h
    · cases h
    · rcases hr : edgesForTurns map nodes c l ts with _ | es2 <;> rw [hr] at h
      · cases h
      · injection h with h
        subst h
        rcases List.mem_cons.1 he with rfl | he2
        · exact ⟨t, List.mem_cons_self _ _, rfl, rfl⟩
        · obtain ⟨t2, ht2, h1, h2⟩ := ih es2 hr e he2
          exact ⟨t2, List.mem_cons_of_mem _ ht2, h1, h2⟩

theorem makeInputGraphAux_bound (map : Map) (nodes : NodeMap) (c : PathConstraints)
    (numLanes n : ℕ) (hkeys : nodes.keys = List.range n)
    (hturn : ∀ t ∈ map.turns, t.id.dst < n) (hn : 0 < n) :
    ∀ (ls : List Lane) (es : List Edge), (∀ l ∈ ls, l.id < n) →
    makeInputGraphAux map nodes c numLanes ls = some es →
    ∀ e ∈ es, e.src < n ∧ e.dst < n := by
  intro ls
  induction ls with
  | nil =>
    intro es _ h e he
    simp only [makeInputGraphAux] at h
    injection h with h
    subst h
    cases he
  | cons l ls ih =>
    intro es hl h e he
    simp only [makeInputGraphAux] at h
    rcases h1 : laneEdges map nodes c l with _ | esl <;> rw [h1] at h
    · cases h
    · rcases h2 : makeInputGraphAux map nodes c numLanes ls with _ | rest <;> rw [h2] at h
      · cases h
      · injection h with h
        subst h
        have hgetl : nodes.get l.id = l.id := by
          unfold NodeMap.get
          rw [hkeys]
          exact listIndexOf_range n l.id (hl l (List.mem_cons_self _ _))
        have hget0 : nodes.get 0 = 0 := by
          unfold NodeMap.get
          rw [hkeys]
          exact listIndexOf_range n 0 hn
        rcases List.mem_append.1 he with hch | hrest
        · by_cases hcond : esl.isEmpty && l.id == numLanes - 1
          · rw [if_pos hcond] at hch
            rcases List.mem_singleton.1 hch with rfl
            constructor
            · simpa [hgetl] using hl l (List.mem_cons_self _ _)
            · simpa [hget0] using hn
          · rw [if_neg hcond] at hch
            unfold laneEdges at h1
            by_cases hcu : canUse c l
            · rw [if_pos hcu] at h1
              obtain ⟨t, ht, hsrc, hdst⟩ := edgesForTurns_shape map nodes c l _ esl h1 e hch
              have htm : t ∈ map.turns := List.mem_of_mem_filter ht
              have hdn : t.id.dst < n := hturn t htm
              have hgett : nodes.get t.id.dst = t.id.dst := by
                unfold NodeMap.get
                rw [hkeys]
                exact listIndexOf_range n t.id.dst hdn
              constructor
              · rw [hsrc, hgetl]
                exact hl l (List.mem_cons_self _ _)
              · rw [hdst, hgett]
                exact hdn
            · rw [if_neg hcu] at h1
              injection h1 with h1
              subst h1
              cases hch
        · exact ih rest (fun l2 hl2 => hl l2 (List.mem_cons_of_mem _ hl2)) h2 e hrest

theorem makeInputGraphAux_last (map : Map) (nodes : NodeMap) (c : PathConstraints)
    (numLanes : ℕ) : ∀ (ls : List Lane) (es : List Edge),
    makeInputGraphAux map nodes c numLanes ls = some es →
    (∃ l ∈ ls, l.id = numLanes - 1) →
    ∃ e ∈ es, e.src = nodes.get (numLanes - 1) := by
  intro ls
  induction ls with
  | nil =>
    intro es _ hex
    rcases hex with ⟨l, hl, _⟩
    cases hl
  | cons l ls ih =>
    intro es h hex
    simp only [makeInputGraphAux] at h
    rcases h1 : laneEdges map nodes c l with _ | esl <;> rw [h1] at h
    · cases h
    · rcases h2 : makeInputGraphAux map nodes c numLanes ls with _ | rest <;> rw [h2] at h
      · cases h
      · injection h with h
        subst h
        rcases hex with ⟨l0, hl0, hid⟩
        rcases List.mem_cons.1 hl0 with rfl | hl0mem
        · cases hesl : esl with
          | nil =>
            have hcond : esl.isEmpty && l0.id == numLanes - 1 := by
              rw [hesl, hid]
              simp
            rw [hesl] at hcond
            rw [hcond]
            refine ⟨⟨nodes.get l0.id, nodes.get 0, 1⟩, ?_, ?_⟩
            · rw [if_pos rfl]
              exact List.mem_append.2 (Or.inl (List.mem_singleton.2 rfl))
            · rw [hid]
          | cons e esl2 =>
            have hcond : (esl.isEmpty && l0.id == numLanes - 1) = false := by
              rw [hesl]
              simp [List.isEmpty]
            rw [hesl] at hcond
            unfold laneEdges at h1
            by_cases hcu : canUse c l0
            · rw [if_pos hcu] at h1
              rw [hesl] at h1
              obtain ⟨t, _, hsrc, _⟩ := edgesForTurns_shape map nodes c l0 _ _ h1 e
                (List.mem_cons_self _ _)
              refine ⟨e, ?_, by rw [hsrc, hid]⟩
              rw [if_neg (by rw [hcond]; exact Bool.false_ne_true)]
              exact List.mem_append.2 (Or.inl (List.mem_cons_self _ _))
            · rw [if_neg hcu] at h1
              injection h1 with h1
              rw [hesl] at h1
              cases h1
        · obtain ⟨e, he, hsrc⟩ := ih rest h2 ⟨l0, hl0mem, hid⟩
          exact ⟨e, List.mem_append.2 (Or.inr he), hsrc⟩

theorem makeInputGraph_numNodes (map : Map) (c : PathConstraints) (g : InputGraph)
    (hwf : wfMap map) (hn : 0 < map.lanes.length)
    (h : makeInputGraph map (buildNodeMap map) c = some g) :
    g.numNodes = map.lanes.length := by
  have hkeys := buildNodeMap_keys map hwf.1
  unfold makeInputGraph at h
  rcases haux : makeInputGraphAux map (buildNodeMap map) c map.lanes.length map.lanes
    with _ | es <;> rw [haux] at h
  · cases h
  · injection h with h
    subst h
    have hlid : ∀ l ∈ map.lanes, l.id < map.lanes.length := by
      intro l hl
      have : l.id ∈ map.lanes.map Lane.id := List.mem_map_of_mem Lane.id hl
      rw [hwf.1] at this
      exact List.mem_range.1 this
    have hbound := makeInputGraphAux_bound map (buildNodeMap map) c map.lanes.length
      map.lanes.length hkeys (fun t ht => (hwf.2 t ht).2) hn map.lanes es hlid haux
    have hle := numNodes_le es map.lanes.length hbound
    have hex : ∃ l ∈ map.lanes, l.id = map.lanes.length - 1 := by
      have : map.lanes.length - 1 ∈ List.range map.lanes.length := by
        rw [List.mem_range]
        omega
      rw [← hwf.1] at this
      rcases List.mem_map.1 this with ⟨l, hl, hid⟩
      exact ⟨l, hl, hid⟩
    obtain ⟨e, he, hsrc⟩ := makeInputGraphAux_last map (buildNodeMap map) c
      map.lanes.length map.lanes es haux hex
    have hge := le_numNodes es e he
    have hgetlast : (buildNodeMap map).get (map.lanes.length - 1) = map.lanes.length - 1 := by
      unfold NodeMap.get
      rw [hkeys]
      exact listIndexOf_range _ _ (by omega)
    rw [hsrc, hgetlast] at hge
    have : InputGraph.numNodes ⟨es⟩ = InputGraph.numNodes { edges := es } := rfl
    omega

theorem nodeMapGet_range (nm : NodeMap) (n i : ℕ) (h : nm.keys = List.range n)
    (hi : i < n) : nm.get i = i := by
  unfold NodeMap.get
  rw [h]
  exact listIndexOf_range n i hi

theorem new_some (map : Map) (c : PathConstraints) (seed : Option VehiclePathfinder)
    (pf : VehiclePathfinder) (hwf : wfMap map) (hn : 0 < map.lanes.length)
    (h : VehiclePathfinder.new map c seed = some pf) :
    pf.nodes.keys = List.range map.lanes.length ∧ pf.constraints = c ∧
    pf.graph.ordering.length = map.lanes.length ∧
    ∃ ig, makeInputGraph map (buildNodeMap map) c = some ig ∧ pf.graph.edges = ig.edges := by
  unfold VehiclePathfinder.new at h
  rcases hig : makeInputGraph map (buildNodeMap map) c with _ | ig
  · simp only [hig, Option.none_bind] at h
    exact Option.noConfusion h
  · simp only [hig, Option.some_bind] at h
    have hnum := makeInputGraph_numNodes map c ig hwf hn hig
    cases seed with
    | none =>
      dsimp only at h
      injection h with h
      subst h
      refine ⟨buildNodeMap_keys map hwf.1, rfl, ?_, ig, rfl, rfl⟩
      simp only [prepare, List.length_range]
      exact hnum
    | some s =>
      dsimp only at h
      unfold prepareWithOrder at h
      by_cases hord : s.graph.ordering.length = ig.numNodes
      · rw [if_pos hord] at h
        simp only [Option.map_some'] at h
        injection h with h
        subst h
        refine ⟨buildNodeMap_keys map hwf.1, rfl, ?_, ig, rfl, rfl⟩
        rw [hord, hnum]
      · rw [if_neg hord] at h
        simp only [Option.map_none'] at h
        exact Option.noConfusion h

theorem stepsOk_build (map : Map) :
    ∀ (rest : List ℕ) (b e : ℕ), (b :: rest).getLast? = some e →
    stepsOk (windowsStepsAux map b rest ++ [PathStep.lane e]) = true := by
  intro rest
  induction rest with
  | nil =>
    intro b e _
    simp [windowsStepsAux, stepsOk, stepsOkAux]
  | cons c rest2 ih =>
    intro b e hlast
    rw [List.getLast?_cons_cons] at hlast
    have ihc := ih c e hlast
    cases rest2 with
    | nil =>
      simp only [List.getLast?_singleton] at hlast
      injection hlast with hlast
      subst hlast
      simp [windowsStepsAux, stepsOk, stepsOkAux]
    | cons d rest3 =>
      simp only [windowsStepsAux, List.cons_append, stepsOk, stepsOkAux] at ihc ⊢
      simpa using ihc

theorem firstLane_build (map : Map) (rest : List ℕ) (b e : ℕ)
    (hlast : (b :: rest).getLast? = some e) :
    firstLaneOf (windowsStepsAux map b rest ++ [PathStep.lane e]) = some b := by
  cases rest with
  | nil =>
    simp only [List.getLast?_singleton] at hlast
    injection hlast with hlast
    subst hlast
    simp [windowsStepsAux, firstLaneOf]
  | cons c rest2 =>
    simp [windowsStepsAux, firstLaneOf]

theorem lastLane_build (steps : List PathStep) (e : ℕ) :
    lastLaneOf (steps ++ [PathStep.lane e]) = some e := by
  unfold lastLaneOf
  rw [List.getLast?_concat]

theorem pathfind_some (pf : VehiclePathfinder) (req : PathRequest) (map : Map)
    (p : Path) (h : pf.pathfind req map = PathfindOutcome.result (some p)) :
    ∃ raw w, calcPathFG pf.graph (pf.nodes.get req.start.lane)
        (pf.nodes.get req.endPos.lane) = some (raw, w) ∧
      p = ⟨buildSteps map (pf.nodes.translate raw) req.endPos.lane,
        req.endPos.distAlong, (w : ℚ) / 100⟩ := by
  unfold VehiclePathfinder.pathfind at h
  by_cases hs : (map.get_l req.start.lane).is_sidewalk
  · rw [if_pos hs] at h
    cases h
  · rw [if_neg hs] at h
    rcases hc : calcPathFG pf.graph (pf.nodes.get req.start.lane)
        (pf.nodes.get req.endPos.lane) with _ | pr <;> rw [hc] at h
    · cases h
    · obtain ⟨raw, w⟩ := pr
      dsimp only at h
      by_cases hb : pf.constraints = PathConstraints.Bike
      · rw [if_pos hb] at h
        rcases hcb : check_bike_route ⟨buildSteps map (pf.nodes.translate raw)
            req.endPos.lane, req.endPos.distAlong, (w : ℚ) / 100⟩ map
          with _ | u <;> rw [hcb] at h
        · cases h
        · injection h with h
          injection h with h
          exact ⟨raw, w, rfl, h.symm⟩
      · rw [if_neg hb] at h
        injection h with h
        injection h with h
        exact ⟨raw, w, rfl, h.symm⟩

theorem nodeMap_eq_of_keys (a b : NodeMap) (h : a.keys = b.keys) : a = b := by
  cases a
  cases b
  cases h
  rfl

/-! ## The claims -/

/-- C2: every Path returned by `pathfind` strictly alternates Lane and Turn
steps, starting and ending with a Lane step; the first Lane step is the
request's start lane, the last Lane step is the request's end lane, and each
Turn step's src/dst lanes are exactly the neighbouring Lane steps (all of
this is captured by `stepsOk`, `firstLaneOf`, `lastLaneOf`). -/
theorem C2_path_shape (map : Map) (c : PathConstraints) (seed : Option VehiclePathfinder)
    (pf : VehiclePathfinder) (req : PathRequest) (p : Path)
    (hwf : wfMap map) (hs : req.start.lane < map.lanes.length)
    (ht : req.endPos.lane < map.lanes.length)
    (hnew : VehiclePathfinder.new map c seed = some pf)
    (hp : pf.pathfind req map = PathfindOutcome.result (some p)) :
    stepsOk p.steps = true ∧ firstLaneOf p.steps = some req.start.lane ∧
      lastLaneOf p.steps = some req.endPos.lane := by
  have hn : 0 < map.lanes.length := Nat.lt_of_le_of_lt (Nat.zero_le _) hs
  obtain ⟨hkeys, _, hordlen, _, _, _⟩ := new_some map c seed pf hwf hn hnew
  obtain ⟨raw, w, hcalc, hpval⟩ := pathfind_some pf req map p hp
  rw [nodeMapGet_range _ _ _ hkeys hs, nodeMapGet_range _ _ _ hkeys ht] at hcalc
  unfold calcPathFG at hcalc
  obtain ⟨hcand, hwalk, _⟩ := calcPath_eq_some _ _ _ _ _ _ hcalc
  obtain ⟨hhead, hlast, _, hbound⟩ := mem_candidateSeqs _ _ _ _ _ hcand
  have hbound2 : ∀ x ∈ raw, x < map.lanes.length := fun x hx => hordlen ▸ hbound x hx
  have htrans : pf.nodes.translate raw = raw := by
    have hgen := translate_range map.lanes.length raw hbound2
    unfold NodeMap.translate at hgen ⊢
    rw [hkeys]
    exact hgen
  subst hpval
  simp only [htrans]
  cases raw with
  | nil => cases hhead
  | cons b rest =>
    simp only [List.head?_cons] at hhead
    injection hhead with hhead
    constructor
    · exact stepsOk_build map rest b _ hlast
    constructor
    · rw [← hhead]
      exact firstLane_build map rest b _ hlast
    · exact lastLane_build _ _

/-- Witness for C2 at Scenario A (`map3`, request lane 0 to lane 2). -/
theorem C2_witness :
    stepsOk [PathStep.lane 0, PathStep.turn ⟨10, 0, 1⟩, PathStep.lane 1,
      PathStep.turn ⟨11, 1, 2⟩, PathStep.lane 2] = true ∧
    firstLaneOf [PathStep.lane 0, PathStep.turn ⟨10, 0, 1⟩, PathStep.lane 1,
      PathStep.turn ⟨11, 1, 2⟩, PathStep.lane 2] = some req3.start.lane ∧
    lastLaneOf [PathStep.lane 0, PathStep.turn ⟨10, 0, 1⟩, PathStep.lane 1,
      PathStep.turn ⟨11, 1, 2⟩, PathStep.lane 2] = some req3.endPos.lane := by
  have hp : VehiclePathfinder.pathfind
      ⟨⟨[⟨0, 1, 8⟩, ⟨1, 2, 8⟩, ⟨2, 0, 1⟩], [0, 1, 2]⟩, ⟨[0, 1, 2]⟩, .Car⟩ req3 map3 =
      PathfindOutcome.result (some ⟨[PathStep.lane 0, PathStep.turn ⟨10, 0, 1⟩,
        PathStep.lane 1, PathStep.turn ⟨11, 1, 2⟩, PathStep.lane 2], 7, (16 : ℚ) / 100⟩) := by
    have h := map3_path
    rw [map3_new] at h
    simp only [Option.map_some'] at h
    exact Option.some.inj h
  exact C2_path_shape map3 .Car none _ req3 _ (by decide) (by decide) (by decide) map3_new hp

/-- C3: the Car edge weight is round(lane traversal time + turn traversal
time), each time being the segment's length divided by the owning road's
speed limit, rounded to the nearest whole unit; on Scenario A
(`map3`: 100 m lanes, 5 m turns, 13 m/s) each hop costs
round(105/13) = 8 units and the two-hop path 0→1→2 has total weight 16. -/
theorem C3_car_cost :
    (∀ (l : Lane) (t : Turn) (m : Map), cost l t .Car m =
      some ((round (l.length / (m.get_r l.parent).speed_limit +
        t.geomLength / (m.get_parent t.id.dst).speed_limit)).toNat)) ∧
    roundUsize ((105 : ℚ) / 13) = 8 ∧
    cost ⟨0, LaneType.driving, 100, 0, 10⟩ ⟨⟨10, 0, 1⟩, 5⟩ .Car map3 = some 8 ∧
    cost ⟨1, LaneType.driving, 100, 1, 11⟩ ⟨⟨11, 1, 2⟩, 5⟩ .Car map3 = some 8 ∧
    ((VehiclePathfinder.new map3 .Car none).map (fun pf => calcPathFG pf.graph 0 2)) =
      some (some ([0, 1, 2], 16)) := by
  refine ⟨?_, ?_, cost3a, cost3b, ?_⟩
  · intro l t m
    simp [cost, roundUsize_eq]
  · rw [show ((105 : ℚ) / 13) = ((105 : ℕ) : ℚ) / ((13 : ℕ) : ℚ) by norm_num, roundUsize_div]
  · rw [map3_new]
    simp only [Option.map_some']
    exact congrArg some (by decide)

/-- C4 as stated is false: for a 2.4 m general driving lane and a 2 m turn
the code computes round(1.5 × 4.4) = 7, while "round(lane length + turn
length) scaled by the 1.5 multiplier" is 1.5 × round(4.4) = 1.5 × 4 = 6. -/
theorem C4_counterexample :
    cost ⟨5, LaneType.driving, 12 / 5, 0, 0⟩ ⟨⟨0, 5, 6⟩, 2⟩ .Bike map7 = some 7 ∧
    ((round ((12 / 5 : ℚ) + 2) : ℤ) : ℚ) * (3 / 2) = 6 ∧ ((7 : ℚ) ≠ 6) := by
  refine ⟨?_, ?_, by norm_num⟩
  · simp [cost, Lane.is_biking, Lane.is_bus, Lane.is_driving]
    rw [show ((3 : ℚ) / 2 * (12 / 5 + 2)) = ((33 : ℕ) : ℚ) / ((5 : ℕ) : ℚ) by norm_num,
      roundUsize_div]
  · rw [round_eq, show ((12 / 5 : ℚ) + 2 + 1 / 2) = ((49 : ℕ) : ℚ) / ((10 : ℕ) : ℚ) by norm_num,
      Rat.floor_natCast_div_natCast]
    norm_num

/-- C4 amended: the Bike edge weight is round(multiplier × (lane length +
turn length)) — the rounding is applied after scaling — with multiplier 1.0
for dedicated bike lanes, 1.1 for bus lanes and 1.5 for general driving
lanes, and the weight does not depend on the map (hence on no speed limit). -/
theorem C4_amended (l : Lane) (t : Turn) (m : Map) (h : canUse .Bike l = true) :
    cost l t .Bike m = some ((round ((if l.is_biking then (1 : ℚ)
      else if l.is_bus then 11 / 10 else 3 / 2) * (l.length + t.geomLength))).toNat) ∧
    ∀ m2 : Map, cost l t .Bike m2 = cost l t .Bike m := by
  refine ⟨?_, fun m2 => rfl⟩
  by_cases h1 : l.is_biking
  · simp [cost, h1, roundUsize_eq]
  · by_cases h2 : l.is_bus
    · simp [cost, h1, h2, roundUsize_eq]
    · have h3 : l.is_driving = true := by
        unfold canUse at h
        simp only [h1, h2, Bool.false_or] at h
        exact h
      simp [cost, h1, h2, h3, roundUsize_eq]

/-- Witness for C4 amended at a concrete bike lane. -/
theorem C4_witness :
    canUse .Bike ⟨0, LaneType.biking, 5, 0, 0⟩ = true ∧
    cost ⟨0, LaneType.biking, 5, 0, 0⟩ ⟨⟨0, 0, 1⟩, 2⟩ .Bike map7 =
      some ((round ((if (⟨0, LaneType.biking, 5, 0, 0⟩ : Lane).is_biking then (1 : ℚ)
        else if (⟨0, LaneType.biking, 5, 0, 0⟩ : Lane).is_bus then 11 / 10 else 3 / 2) *
        ((⟨0, LaneType.biking, 5, 0, 0⟩ : Lane).length +
          (⟨⟨0, 0, 1⟩, 2⟩ : Turn).geomLength))).toNat) :=
  ⟨by decide, (C4_amended ⟨0, LaneType.biking, 5, 0, 0⟩ ⟨⟨0, 0, 1⟩, 2⟩ map7 (by decide)).1⟩

/-- C5: the Bus edge weight is the Car traversal-time sum multiplied by 1.0
on a dedicated bus lane and 1.1 on every other (driving) lane usable by a
bus, rounded to a whole unit. -/
theorem C5_bus_cost (l : Lane) (t : Turn) (m : Map) (h : canUse .Bus l = true) :
    cost l t .Bus m = some ((round ((if l.is_bus then (1 : ℚ) else 11 / 10) *
      (l.length / (m.get_r l.parent).speed_limit +
        t.geomLength / (m.get_parent t.id.dst).speed_limit))).toNat) := by
  by_cases h1 : l.is_bus
  · simp [cost, h1, roundUsize_eq]
  · have h2 : l.is_driving = true := by
      unfold canUse at h
      simp only [h1, Bool.false_or] at h
      exact h
    simp [cost, h1, h2, roundUsize_eq]

/-- Witness for C5 at a concrete bus lane. -/
theorem C5_witness :
    canUse .Bus ⟨0, LaneType.bus, 10, 0, 0⟩ = true ∧
    cost ⟨0, LaneType.bus, 10, 0, 0⟩ ⟨⟨0, 0, 1⟩, 2⟩ .Bus map7 =
      some ((round ((if (⟨0, LaneType.bus, 10, 0, 0⟩ : Lane).is_bus then (1 : ℚ) else 11 / 10) *
        ((⟨0, LaneType.bus, 10, 0, 0⟩ : Lane).length / (map7.get_r 0).speed_limit +
          (⟨⟨0, 0, 1⟩, 2⟩ : Turn).geomLength /
            (map7.get_parent 1).speed_limit))).toNat) :=
  ⟨by decide, C5_bus_cost ⟨0, LaneType.bus, 10, 0, 0⟩ ⟨⟨0, 0, 1⟩, 2⟩ map7 (by decide)⟩

/-- C6 as stated is false: on Scenario A the raw shortest-path weight is 16
(Car mode, a time in seconds according to the spec), but the Path's stored
cost is `Distance::centimeters(16)`, i.e. the rational 16/100 — not 16. -/
theorem C6_counterexample :
    ((VehiclePathfinder.new map3 .Car none).map (fun pf => pf.pathfind req3 map3)) =
      some (PathfindOutcome.result (some ⟨[PathStep.lane 0, PathStep.turn ⟨10, 0, 1⟩,
        PathStep.lane 1, PathStep.turn ⟨11, 1, 2⟩, PathStep.lane 2], 7, (16 : ℚ) / 100⟩)) ∧
    ((VehiclePathfinder.new map3 .Car none).map (fun pf => calcPathFG pf.graph 0 2)) =
      some (some ([0, 1, 2], 16)) ∧
    ((16 : ℚ) / 100 ≠ (16 : ℚ)) := by
  refine ⟨map3_path, ?_, by norm_num⟩
  rw [map3_new]
  simp only [Option.map_some']
  exact congrArg some (by decide)

/-- C6 amended: for every successful `pathfind` the returned Path's cost is
the raw integer shortest-path weight divided by 100 (the weight passed
through `Distance::centimeters`), for every mode alike. -/
theorem C6_amended (pf : VehiclePathfinder) (req : PathRequest) (map : Map) (p : Path)
    (h : pf.pathfind req map = PathfindOutcome.result (some p)) :
    ∃ raw w, calcPathFG pf.graph (pf.nodes.get req.start.lane)
      (pf.nodes.get req.endPos.lane) = some (raw, w) ∧ p.cost = (w : ℚ) / 100 := by
  obtain ⟨raw, w, hcalc, hp⟩ := pathfind_some pf req map p h
  exact ⟨raw, w, hcalc, by rw [hp]⟩

/-- Witness for C6 amended at Scenario A. -/
theorem C6_witness :
    ∃ raw w, calcPathFG (⟨⟨[⟨0, 1, 8⟩, ⟨1, 2, 8⟩, ⟨2, 0, 1⟩], [0, 1, 2]⟩, ⟨[0, 1, 2]⟩,
        .Car⟩ : VehiclePathfinder).graph
      ((⟨⟨[⟨0, 1, 8⟩, ⟨1, 2, 8⟩, ⟨2, 0, 1⟩], [0, 1, 2]⟩, ⟨[0, 1, 2]⟩,
        .Car⟩ : VehiclePathfinder).nodes.get req3.start.lane)
      ((⟨⟨[⟨0, 1, 8⟩, ⟨1, 2, 8⟩, ⟨2, 0, 1⟩], [0, 1, 2]⟩, ⟨[0, 1, 2]⟩,
        .Car⟩ : VehiclePathfinder).nodes.get req3.endPos.lane) = some (raw, w) ∧
      (⟨[PathStep.lane 0, PathStep.turn ⟨10, 0, 1⟩, PathStep.lane 1,
        PathStep.turn ⟨11, 1, 2⟩, PathStep.lane 2], 7, (16 : ℚ) / 100⟩ : Path).cost =
        (w : ℚ) / 100 := by
  refine C6_amended _ req3 map3 _ ?_
  have h := map3_path
  rw [map3_new] at h
  simp only [Option.map_some'] at h
  exact Option.some.inj h

/-- C7 as stated is false: on `map7` the start lane (a bike lane) is
infeasible for the Car pathfinder, yet `pathfind` does not abort — the
assert only rejects sidewalks — and instead returns the absence value. -/
theorem C7_counterexample :
    canUse .Car (map7.get_l 0) = false ∧ (map7.get_l 0).is_sidewalk = false ∧
    req7.start.lane = 0 ∧
    ((VehiclePathfinder.new map7 .Car none).map (fun pf => pf.pathfind req7 map7)) =
      some (PathfindOutcome.result none) :=
  ⟨by decide, by decide, rfl, map7_result⟩

/-- C7 amended: the assertion governs only sidewalk-ness of the start lane:
a request whose start lane is a sidewalk always aborts, while a start lane
that is infeasible for the pathfinder's mode but not a sidewalk does not
trip the assertion — a non-Bike pathfinder then returns a normal result.
(A Bike-mode call can still abort later, inside the `check_bike_route`
diagnostic — see `map8_bike_panic` for a concrete instance across the
placeholder edge — so no blanket "never aborts" holds for Bike.) -/
theorem C7_amended (pf : VehiclePathfinder) (req : PathRequest) (map : Map) :
    ((map.get_l req.start.lane).is_sidewalk = true →
      pf.pathfind req map = PathfindOutcome.panicked) ∧
    ((map.get_l req.start.lane).is_sidewalk = false →
      pf.constraints ≠ PathConstraints.Bike →
      pf.pathfind req map ≠ PathfindOutcome.panicked) := by
  constructor
  · intro hs
    unfold VehiclePathfinder.pathfind
    rw [if_pos hs]
  · intro hs hb
    unfold VehiclePathfinder.pathfind
    rw [if_neg (by rw [hs]; exact Bool.false_ne_true)]
    rcases hc : calcPathFG pf.graph (pf.nodes.get req.start.lane)
        (pf.nodes.get req.endPos.lane) with _ | pr
    · intro h
      exact PathfindOutcome.noConfusion h
    · obtain ⟨raw, w⟩ := pr
      dsimp only
      rw [if_neg hb]
      intro h
      exact PathfindOutcome.noConfusion h

/-- Witness for C7 amended: a sidewalk start aborts (on `mapSide`), while a
bike-lane start under a Car pathfinder does not abort (on `map7`). -/
theorem C7_witness :
    VehiclePathfinder.pathfind ⟨⟨[⟨0, 0, 1⟩], [0]⟩, ⟨[0]⟩, .Car⟩ reqSide mapSide =
      PathfindOutcome.panicked ∧
    VehiclePathfinder.pathfind ⟨⟨[⟨1, 0, 1⟩], [0, 1]⟩, ⟨[0, 1]⟩, .Car⟩ req7 map7 ≠
      PathfindOutcome.panicked :=
  ⟨(C7_amended ⟨⟨[⟨0, 0, 1⟩], [0]⟩, ⟨[0]⟩, .Car⟩ reqSide mapSide).1 (by decide),
   (C7_amended ⟨⟨[⟨1, 0, 1⟩], [0, 1]⟩, ⟨[0, 1]⟩, .Car⟩ req7 map7).2 (by decide) (by decide)⟩

/-- C8 evaluated at the failing input: on `map8`, lane 0 is not reachable
from lane 1 by any mode-feasible turn walk, yet `pathfind` returns a Path —
routed through the placeholder edge 2→0 that `make_input_graph` injected —
instead of the absence value `None`. -/
theorem C8_bug :
    ((VehiclePathfinder.new map8 .Car none).map (fun pf => pf.pathfind req10 map8)) =
      some (PathfindOutcome.result (some ⟨[PathStep.lane 1, PathStep.turn ⟨31, 1, 2⟩,
        PathStep.lane 2, PathStep.turn ⟨32, 2, 0⟩, PathStep.lane 0], 0, (12 : ℚ) / 100⟩)) ∧
    ¬ ∃ seq, FeasibleWalk map8 .Car 1 0 seq := by
  refine ⟨map8_path, ?_⟩
  rintro ⟨seq, hhead, hlast, hwalk⟩
  have hreach := walkW_reach (specFeasibleEdges map8 .Car) (fun u => u == 0) ?_
    seq 1 0 hhead hlast hwalk rfl
  · cases hreach
  · rw [map8_spec_edges]
    intro e he hd
    rcases List.mem_singleton.1 he with rfl
    cases hd

/-- C1 evaluated at the failing input: on `map1` lanes 1 and 0 are connected
for Car (the walk 1→2→0 is feasible, weight 22, and 22 is the minimum weight
of every feasible walk from 1 to 0), yet the engine returns the raw sequence
[1, 3, 0] with weight 12 < 22: its hop 3→0 is the placeholder edge, which
corresponds to no turn of the map, so the returned weight is not the minimum
over mode-feasible lane/turn paths. -/
theorem C1_bug :
    ((VehiclePathfinder.new map1 .Car none).map (fun pf => calcPathFG pf.graph 1 0)) =
      some (some ([1, 3, 0], 12)) ∧
    ((VehiclePathfinder.new map1 .Car none).map (fun pf => pf.pathfind req10 map1)) =
      some (PathfindOutcome.result (some ⟨[PathStep.lane 1, PathStep.turn ⟨21, 1, 3⟩,
        PathStep.lane 3, PathStep.turn ⟨23, 3, 0⟩, PathStep.lane 0], 0, (12 : ℚ) / 100⟩)) ∧
    FeasibleWalk map1 .Car 1 0 [1, 2, 0] ∧
    walkW (specFeasibleEdges map1 .Car) [1, 2, 0] = some 22 ∧
    (∀ seq w, seq.head? = some 1 → seq.getLast? = some 0 →
      walkW (specFeasibleEdges map1 .Car) seq = some w → 22 ≤ w) ∧
    walkW (specFeasibleEdges map1 .Car) [1, 3, 0] = none ∧ (12 < 22) := by
  refine ⟨?_, map1_path, ⟨rfl, rfl, ?_⟩, ?_, ?_, ?_, by omega⟩
  · rw [map1_new]
    simp only [Option.map_some']
    exact congrArg some (by decide)
  · rw [map1_spec_edges]
    decide
  · rw [map1_spec_edges]
    decide
  · intro seq w hh hl hw
    rw [map1_spec_edges] at hw
    have hlb := walkW_lb [⟨1, 2, 11⟩, ⟨1, 3, 11⟩, ⟨2, 0, 11⟩]
      (fun u => if u = 0 then 0 else if u = 1 then 22 else 11) (by decide)
      seq 1 0 w hh hl hw
    simpa using hlb
  · rw [map1_spec_edges]
    decide

/-- C9: for every well-formed snapshot and every successfully built
pathfinder, the node map lists exactly the lane ids (one node per lane, also
for lanes infeasible for the mode), the prepared hierarchy's node count (its
ordering length) equals the lane count, and the node map is identical across
all pathfinders built from the same snapshot, whatever their mode or seed. -/
theorem C9_nodes (map : Map) (c : PathConstraints) (seed : Option VehiclePathfinder)
    (pf : VehiclePathfinder) (hwf : wfMap map) (hn : 0 < map.lanes.length)
    (h : VehiclePathfinder.new map c seed = some pf) :
    pf.nodes.keys.length = map.lanes.length ∧
    pf.nodes.keys = map.lanes.map Lane.id ∧
    pf.graph.ordering.length = map.lanes.length ∧
    ∀ (c2 : PathConstraints) (seed2 : Option VehiclePathfinder) (pf2 : VehiclePathfinder),
      VehiclePathfinder.new map c2 seed2 = some pf2 → pf2.nodes = pf.nodes := by
  obtain ⟨hkeys, _, hordlen, _, _, _⟩ := new_some map c seed pf hwf hn h
  refine ⟨by rw [hkeys, List.length_range], by rw [hkeys, hwf.1], hordlen, ?_⟩
  intro c2 seed2 pf2 h2
  obtain ⟨hkeys2, _, _, _, _, _⟩ := new_some map c2 seed2 pf2 hwf hn h2
  exact nodeMap_eq_of_keys _ _ (by rw [hkeys2, hkeys])

/-- Witness for C9 at Scenario A. -/
theorem C9_witness :
    (⟨⟨[⟨0, 1, 8⟩, ⟨1, 2, 8⟩, ⟨2, 0, 1⟩], [0, 1, 2]⟩, ⟨[0, 1, 2]⟩, .Car⟩ : VehiclePathfinder).nodes.keys.length = map3.lanes.length ∧
    (⟨⟨[⟨0, 1, 8⟩, ⟨1, 2, 8⟩, ⟨2, 0, 1⟩], [0, 1, 2]⟩, ⟨[0, 1, 2]⟩, .Car⟩ : VehiclePathfinder).nodes.keys = map3.lanes.map Lane.id ∧
    (⟨⟨[⟨0, 1, 8⟩, ⟨1, 2, 8⟩, ⟨2, 0, 1⟩], [0, 1, 2]⟩, ⟨[0, 1, 2]⟩, .Car⟩ : VehiclePathfinder).graph.ordering.length = map3.lanes.length := by
  have h := C9_nodes map3 .Car none _ (by decide) (by decide) map3_new
  exact ⟨h.1, h.2.1, h.2.2.1⟩

/-- C10: `apply_edits` rebuilds only the hierarchy: the node map and the
constraints are unchanged, and the new hierarchy is the rebuilt input graph
prepared with exactly the ordering of the hierarchy being replaced. -/
theorem C10_apply_edits (pf pf2 : VehiclePathfinder) (map : Map)
    (h : pf.apply_edits map = some pf2) :
    pf2.nodes = pf.nodes ∧ pf2.constraints = pf.constraints ∧
    pf2.graph.ordering = pf.graph.ordering ∧
    ∃ ig, makeInputGraph map pf.nodes pf.constraints = some ig ∧
      pf2.graph = ⟨ig.edges, pf.graph.ordering⟩ := by
  unfold VehiclePathfinder.apply_edits at h
  rcases hig : makeInputGraph map pf.nodes pf.constraints with _ | ig
  · simp only [hig, Option.none_bind] at h
    exact Option.noConfusion h
  · simp only [hig, Option.some_bind] at h
    unfold prepareWithOrder at h
    by_cases hord : pf.graph.ordering.length = ig.numNodes
    · rw [if_pos hord] at h
      simp only [Option.map_some'] at h
      injection h with h
      subst h
      exact ⟨rfl, rfl, rfl, ig, rfl, rfl⟩
    · rw [if_neg hord] at h
      simp only [Option.map_none'] at h
      exact Option.noConfusion h

/-- Witness for C10: an (edit-free) rebuild on Scenario A succeeds and
leaves everything but the hierarchy reference untouched. -/
theorem C10_witness :
    VehiclePathfinder.apply_edits (⟨⟨[⟨0, 1, 8⟩, ⟨1, 2, 8⟩, ⟨2, 0, 1⟩], [0, 1, 2]⟩, ⟨[0, 1, 2]⟩, .Car⟩ : VehiclePathfinder) map3 = some (⟨⟨[⟨0, 1, 8⟩, ⟨1, 2, 8⟩, ⟨2, 0, 1⟩], [0, 1, 2]⟩, ⟨[0, 1, 2]⟩, .Car⟩ : VehiclePathfinder) ∧
    ((⟨⟨[⟨0, 1, 8⟩, ⟨1, 2, 8⟩, ⟨2, 0, 1⟩], [0, 1, 2]⟩, ⟨[0, 1, 2]⟩, .Car⟩ : VehiclePathfinder).nodes = (⟨⟨[⟨0, 1, 8⟩, ⟨1, 2, 8⟩, ⟨2, 0, 1⟩], [0, 1, 2]⟩, ⟨[0, 1, 2]⟩, .Car⟩ : VehiclePathfinder).nodes ∧ (⟨⟨[⟨0, 1, 8⟩, ⟨1, 2, 8⟩, ⟨2, 0, 1⟩], [0, 1, 2]⟩, ⟨[0, 1, 2]⟩, .Car⟩ : VehiclePathfinder).constraints = (⟨⟨[⟨0, 1, 8⟩, ⟨1, 2, 8⟩, ⟨2, 0, 1⟩], [0, 1, 2]⟩, ⟨[0, 1, 2]⟩, .Car⟩ : VehiclePathfinder).constraints ∧
      (⟨⟨[⟨0, 1, 8⟩, ⟨1, 2, 8⟩, ⟨2, 0, 1⟩], [0, 1, 2]⟩, ⟨[0, 1, 2]⟩, .Car⟩ : VehiclePathfinder).graph.ordering = (⟨⟨[⟨0, 1, 8⟩, ⟨1, 2, 8⟩, ⟨2, 0, 1⟩], [0, 1, 2]⟩, ⟨[0, 1, 2]⟩, .Car⟩ : VehiclePathfinder).graph.ordering ∧
      ∃ ig, makeInputGraph map3 (⟨⟨[⟨0, 1, 8⟩, ⟨1, 2, 8⟩, ⟨2, 0, 1⟩], [0, 1, 2]⟩, ⟨[0, 1, 2]⟩, .Car⟩ : VehiclePathfinder).nodes (⟨⟨[⟨0, 1, 8⟩, ⟨1, 2, 8⟩, ⟨2, 0, 1⟩], [0, 1, 2]⟩, ⟨[0, 1, 2]⟩, .Car⟩ : VehiclePathfinder).constraints = some ig ∧
        (⟨⟨[⟨0, 1, 8⟩, ⟨1, 2, 8⟩, ⟨2, 0, 1⟩], [0, 1, 2]⟩, ⟨[0, 1, 2]⟩, .Car⟩ : VehiclePathfinder).graph = ⟨ig.edges, (⟨⟨[⟨0, 1, 8⟩, ⟨1, 2, 8⟩, ⟨2, 0, 1⟩], [0, 1, 2]⟩, ⟨[0, 1, 2]⟩, .Car⟩ : VehiclePathfinder).graph.ordering⟩) := by
  have happ : VehiclePathfinder.apply_edits (⟨⟨[⟨0, 1, 8⟩, ⟨1, 2, 8⟩, ⟨2, 0, 1⟩], [0, 1, 2]⟩, ⟨[0, 1, 2]⟩, .Car⟩ : VehiclePathfinder) map3 = some (⟨⟨[⟨0, 1, 8⟩, ⟨1, 2, 8⟩, ⟨2, 0, 1⟩], [0, 1, 2]⟩, ⟨[0, 1, 2]⟩, .Car⟩ : VehiclePathfinder) := by
    simp only [VehiclePathfinder.apply_edits]
    rw [map3_graph]
    decide
  exact ⟨happ, C10_apply_edits (⟨⟨[⟨0, 1, 8⟩, ⟨1, 2, 8⟩, ⟨2, 0, 1⟩], [0, 1, 2]⟩, ⟨[0, 1, 2]⟩, .Car⟩ : VehiclePathfinder) (⟨⟨[⟨0, 1, 8⟩, ⟨1, 2, 8⟩, ⟨2, 0, 1⟩], [0, 1, 2]⟩, ⟨[0, 1, 2]⟩, .Car⟩ : VehiclePathfinder) map3 happ⟩

end ABStreet
